import Mathlib

/-!
# opa-cp: a shallow embedding and its verified properties

The program polls an OPA server for a document and copies a string result to
a file or to standard output (`main.go`); its `--input` flag is parsed by the
vendored `jsonflag` package (`jsonflag.go`).

Go strings are modelled by `String` (Unicode text, that is, valid UTF-8).
Everything the program does to the outside world (HTTP round trips, the file
system, the standard streams, sleeping) is recorded as a list of `Effect`s,
and what the outside world answers is supplied by a `World`.

The Go standard library is not part of the repository.  The few library
functions the program relies on (`strings`, `path`, `encoding/json`) are
modelled in the first sections, following their documented behaviour; the
repository's own functions follow from the section "jsonflag" on.
-/

namespace OpaCp

/-! ## Package `strings` -/

/-- The Go predicate `unicode.IsSpace`, which `strings.TrimSpace` uses. -/
def unicode.IsSpace (c : Char) : Bool :=
  let n := c.toNat
  (9 ≤ n && n ≤ 13) || n == 0x20 || n == 0x85 || n == 0xA0 || n == 0x1680 ||
  (0x2000 ≤ n && n ≤ 0x200A) || n == 0x2028 || n == 0x2029 || n == 0x202F ||
  n == 0x205F || n == 0x3000

/-- Drop the longest suffix of a list whose elements all satisfy `p`. -/
def dropWhileEnd (p : Char → Bool) (cs : List Char) : List Char :=
  (cs.reverse.dropWhile p).reverse

/-- The Go function `strings.TrimSpace`. -/
def strings.TrimSpace (s : String) : String :=
  ⟨dropWhileEnd unicode.IsSpace (s.data.dropWhile unicode.IsSpace)⟩

/-- The Go function `strings.TrimLeft`: drop every leading character that
occurs in `cutset`. -/
def strings.TrimLeft (s cutset : String) : String :=
  ⟨s.data.dropWhile (fun c => cutset.data.contains c)⟩

/-- The Go function `strings.TrimRight`: drop every trailing character that
occurs in `cutset`. -/
def strings.TrimRight (s cutset : String) : String :=
  ⟨dropWhileEnd (fun c => cutset.data.contains c) s.data⟩

/-- The Go function `strings.Trim`: drop the characters of `cutset` at both
ends. -/
def strings.Trim (s cutset : String) : String :=
  strings.TrimRight (strings.TrimLeft s cutset) cutset

/-- Whether `p` is a prefix of `cs`. -/
def hasPrefixList : List Char → List Char → Bool
  | [], _ => true
  | _ :: _, [] => false
  | p :: ps, c :: cs => p == c && hasPrefixList ps cs

/-- The Go function `strings.HasPrefix`. -/
def strings.HasPrefix (s pre : String) : Bool :=
  hasPrefixList pre.data s.data

/-- Whether `sub` occurs in `cs` as a contiguous block. -/
def containsList (sub : List Char) : List Char → Bool
  | [] => hasPrefixList sub []
  | c :: cs => hasPrefixList sub (c :: cs) || containsList sub cs

/-- The Go function `strings.Contains`. -/
def strings.Contains (s substr : String) : Bool :=
  containsList substr.data s.data

/-! ## Package `path` -/

/-- Split a list of characters at every slash. -/
def splitSlash : List Char → List (List Char)
  | [] => [[]]
  | c :: cs =>
    match splitSlash cs with
    | [] => [[c]]
    | seg :: segs => if c == '/' then [] :: seg :: segs else (c :: seg) :: segs

/-- The element-wise pass of `path.Clean`: `acc` holds the elements kept so
far, last one first.  Empty elements and `.` are dropped, `..` removes the
element before it when there is one to remove, is dropped at the root, and is
kept otherwise. -/
def cleanElems (rooted : Bool) : List (List Char) → List (List Char) → List (List Char)
  | [], acc => acc.reverse
  | e :: es, acc =>
    if e == [] || e == ['.'] then cleanElems rooted es acc
    else if e == ['.', '.'] then
      match acc with
      | [] => if rooted then cleanElems rooted es [] else cleanElems rooted es [e]
      | a :: as =>
        if a == ['.', '.'] then cleanElems rooted es (e :: a :: as)
        else cleanElems rooted es as
    else cleanElems rooted es (e :: acc)

/-- The Go function `path.Clean`. -/
def path.Clean (p : String) : String :=
  let rooted := hasPrefixList ['/'] p.data
  let body := List.intercalate ['/'] (cleanElems rooted (splitSlash p.data) [])
  let out := if rooted then '/' :: body else body
  if out == [] then "." else ⟨out⟩

/-- The Go function `path.Dir`: everything up to and including the last
slash, cleaned. -/
def path.Dir (p : String) : String :=
  path.Clean ⟨dropWhileEnd (fun c => c != '/') p.data⟩

/-! ## Errors -/

/-- The error envelope of the server (`errorResponseV1` in `main.go`). -/
structure errorResponseV1 where
  Code : String
  Message : String

/-- The method `errorResponseV1.Error`: `fmt.Sprintf("%v: %v", e.Code, e.Message)`. -/
def errorResponseV1.Error (e : errorResponseV1) : String :=
  e.Code ++ ": " ++ e.Message

/-- Go `error` values, by the way they are made: `lib` is an error made by a
library (`net/http`, `os`, `io`, `encoding/json`), known by its description;
`response` is an `errorResponseV1` used as an error; `errorf` is made by
`fmt.Errorf`; `wrapf` is made by `errors.Wrapf` around a cause. -/
inductive GoError where
  | lib (description : String)
  | response (e : errorResponseV1)
  | errorf (description : String)
  | wrapf (cause : GoError) (message : String)

/-- The description of an error, its `Error()` method. -/
def GoError.Error : GoError → String
  | .lib d => d
  | .response e => e.Error
  | .errorf d => d
  | .wrapf cause message => message ++ ": " ++ cause.Error

/-! ## Values: what an `interface{}` holds after JSON decoding -/

/-- A Go value of type `interface{}` as `encoding/json` produces it.  A
`float64` is carried by its number literal: the rounding to binary floating
point is not modelled, only the range check is.  A `map` is kept as a list of
entries with distinct keys in increasing key order. -/
inductive Value where
  | nil
  | bool (b : Bool)
  | float64 (lit : String)
  | Number (lit : String)
  | string (s : String)
  | slice (xs : List Value)
  | map (m : List (String × Value))

/-- The type name that the verb `%T` of package `fmt` prints. -/
def Value.typeName : Value → String
  | .nil => "<nil>"
  | .bool _ => "bool"
  | .float64 _ => "float64"
  | .Number _ => "json.Number"
  | .string _ => "string"
  | .slice _ => "[]interface \x7b\x7d"
  | .map _ => "map[string]interface \x7b\x7d"

/-- Lower-case hexadecimal digit. -/
def hexDigit (n : Nat) : Char :=
  if n < 10 then Char.ofNat (48 + n) else Char.ofNat (87 + n)

/-- How the encoder writes one character of a string (HTML escaping is on,
as it is by default in `json.Marshal` and in `json.Encoder`). -/
def escapeChar (c : Char) : List Char :=
  if c == '\\' then ['\\', '\\']
  else if c == '"' then ['\\', '"']
  else if c == '\n' then ['\\', 'n']
  else if c == '\r' then ['\\', 'r']
  else if c == '\t' then ['\\', 't']
  else if c.toNat < 0x20 || c == '<' || c == '>' || c == '&' then
    ['\\', 'u', '0', '0', hexDigit (c.toNat / 16), hexDigit (c.toNat % 16)]
  else if c.toNat == 0x2028 then "\\u2028".data
  else if c.toNat == 0x2029 then "\\u2029".data
  else [c]

/-- A JSON string literal for `s`. -/
def encodeString (s : String) : List Char :=
  '"' :: (s.data.flatMap escapeChar ++ ['"'])

/-- Strict lexicographic order on character lists, by code point (which for
valid UTF-8 is the byte order Go sorts strings by). -/
def lessChars : List Char → List Char → Bool
  | _, [] => false
  | [], _ :: _ => true
  | a :: as, b :: bs => a.toNat < b.toNat || (a.toNat == b.toNat && lessChars as bs)

/-- Strict order on strings, as Go compares them. -/
def lessString (a b : String) : Bool :=
  lessChars a.data b.data

/-- Insert an encoded map entry into a list sorted by key. -/
def insertByKey (e : String × List Char) : List (String × List Char) → List (String × List Char)
  | [] => [e]
  | x :: xs => if lessString e.1 x.1 then e :: x :: xs else x :: insertByKey e xs

/-- Sort encoded map entries by key (the encoder writes map keys sorted). -/
def sortByKey : List (String × List Char) → List (String × List Char)
  | [] => []
  | x :: xs => insertByKey x (sortByKey xs)

/-- Write encoded map entries as `"k":v` separated by commas. -/
def joinFields : List (String × List Char) → List Char
  | [] => []
  | [(k, v)] => encodeString k ++ ':' :: v
  | (k, v) :: rest => encodeString k ++ ':' :: v ++ ',' :: joinFields rest

mutual
/-- The characters `json.Marshal` writes for a value. -/
def marshalChars : Value → List Char
  | .nil => "null".data
  | .bool b => if b then "true".data else "false".data
  | .float64 lit => lit.data
  | .Number lit => if lit == "" then ['0'] else lit.data
  | .string s => encodeString s
  | .slice xs => '[' :: (marshalElems xs ++ [']'])
  | .map m => '{' :: (joinFields (sortByKey (marshalFields m)) ++ ['}'])
/-- The elements of a slice, separated by commas. -/
def marshalElems : List Value → List Char
  | [] => []
  | [x] => marshalChars x
  | x :: y :: rest => marshalChars x ++ ',' :: marshalElems (y :: rest)
/-- The entries of a map, each value encoded. -/
def marshalFields : List (String × Value) → List (String × List Char)
  | [] => []
  | (k, v) :: rest => (k, marshalChars v) :: marshalFields rest
end

/-- The Go function `json.Marshal` on a value. -/
def json.Marshal (v : Value) : String :=
  ⟨marshalChars v⟩

/-! ## Package `encoding/json`: reading a value from a stream -/

/-- JSON text as the decoder reads it: the members of an object in the order
they are written, repeated keys included, and numbers as their literals. -/
inductive JSON where
  | null
  | bool (b : Bool)
  | number (lit : String)
  | string (s : String)
  | array (xs : List JSON)
  | object (members : List (String × JSON))

/-- The error `io.EOF`. -/
def io.EOF : GoError := .lib "EOF"

/-- The error `io.ErrUnexpectedEOF`. -/
def io.ErrUnexpectedEOF : GoError := .lib "unexpected EOF"

/-- The first byte of the UTF-8 encoding of a character. -/
def firstByte (c : Char) : Nat :=
  let n := c.toNat
  if n < 0x80 then n
  else if n < 0x800 then 0xC0 + n / 64
  else if n < 0x10000 then 0xE0 + n / 4096
  else 0xF0 + n / 262144

/-- The scanner's `quoteChar`, applied to the byte the scanner stopped at. -/
def quoteChar (c : Char) : String :=
  let b := firstByte c
  if c == '\'' then "'\\''"
  else if c == '"' then "'\"'"
  else if c == '\\' then "'\\\\'"
  else if b == 7 then "'\\a'"
  else if b == 8 then "'\\b'"
  else if b == 12 then "'\\f'"
  else if b == 10 then "'\\n'"
  else if b == 13 then "'\\r'"
  else if b == 9 then "'\\t'"
  else if b == 11 then "'\\v'"
  else if b < 0x20 || b == 0x7F then ⟨['\'', '\\', 'x', hexDigit (b / 16), hexDigit (b % 16), '\'']⟩
  else ⟨['\'', Char.ofNat b, '\'']⟩

/-- A `json.SyntaxError`: an invalid character in some context. -/
def syntaxError (c : Char) (context : String) : GoError :=
  .lib ("invalid character " ++ quoteChar c ++ " " ++ context)

/-- The error reported when the scanning budget is used up; `readValue` gives
a budget that is never used up (`readValue_within_budget`). -/
def budgetError : GoError := .lib "json: scanning budget exhausted"

/-- JSON white space. -/
def isSpace (c : Char) : Bool :=
  c == ' ' || c == '\t' || c == '\r' || c == '\n'

/-- Drop leading JSON white space. -/
def skipSpace (cs : List Char) : List Char :=
  cs.dropWhile isSpace

/-- Decimal digit. -/
def isDigit (c : Char) : Bool :=
  48 ≤ c.toNat && c.toNat ≤ 57

/-- The value of a hexadecimal digit. -/
def hexVal (c : Char) : Option Nat :=
  let n := c.toNat
  if 48 ≤ n && n ≤ 57 then some (n - 48)
  else if 97 ≤ n && n ≤ 102 then some (n - 87)
  else if 65 ≤ n && n ≤ 70 then some (n - 55)
  else none

/-- Four hexadecimal digits of a `\u` escape, read after the `u`. -/
def scanHex4 : Nat → Nat → List Char → Except GoError (Nat × List Char)
  | 0, acc, cs => .ok (acc, cs)
  | _ + 1, _, [] => .error io.ErrUnexpectedEOF
  | k + 1, acc, c :: cs =>
    match hexVal c with
    | some h => scanHex4 k (16 * acc + h) cs
    | none => .error (syntaxError c "in \\u hexadecimal character escape")

/-- The function `getu4`: the code unit of a complete `\uXXXX` escape at the
head of the input, if there is one. -/
def getu4 : List Char → Option Nat
  | '\\' :: 'u' :: a :: b :: c :: d :: _ =>
    match hexVal a, hexVal b, hexVal c, hexVal d with
    | some x, some y, some z, some w => some (4096 * x + 256 * y + 16 * z + w)
    | _, _, _, _ => none
  | _ => none

/-- The character of a one-letter escape. -/
def simpleEscape (c : Char) : Option Char :=
  if c == 'b' then some (Char.ofNat 8)
  else if c == 'f' then some (Char.ofNat 12)
  else if c == 'n' then some '\n'
  else if c == 'r' then some '\r'
  else if c == 't' then some '\t'
  else if c == '\\' || c == '/' || c == '"' then some c
  else none

/-- Read a string literal after its opening quote; `acc` holds the decoded
characters so far, last one first.  A `\u` escape of a surrogate is combined
with a following low surrogate escape or else replaced by U+FFFD. -/
def scanString : Nat → List Char → List Char → Except GoError (String × List Char)
  | 0, _, _ => .error budgetError
  | _ + 1, [], _ => .error io.ErrUnexpectedEOF
  | fuel + 1, c :: cs, acc =>
    if c == '"' then .ok (⟨acc.reverse⟩, cs)
    else if c == '\\' then
      match cs with
      | [] => .error io.ErrUnexpectedEOF
      | e :: rest =>
        if e == 'u' then
          match scanHex4 4 0 rest with
          | .error err => .error err
          | .ok (rr, rest') =>
            if 0xD800 ≤ rr && rr < 0xE000 then
              match getu4 rest' with
              | some rr1 =>
                if rr < 0xDC00 && 0xDC00 ≤ rr1 && rr1 < 0xE000 then
                  scanString fuel (rest'.drop 6)
                    (Char.ofNat (0x10000 + (rr - 0xD800) * 0x400 + (rr1 - 0xDC00)) :: acc)
                else scanString fuel rest' (Char.ofNat 0xFFFD :: acc)
              | none => scanString fuel rest' (Char.ofNat 0xFFFD :: acc)
            else scanString fuel rest' (Char.ofNat rr :: acc)
        else
          match simpleEscape e with
          | some d => scanString fuel rest (d :: acc)
          | none => .error (syntaxError e "in string escape code")
    else if c.toNat < 0x20 then .error (syntaxError c "in string literal")
    else scanString fuel cs (c :: acc)

/-- Read one or more digits, or fail in the given context. -/
def scanDigits (context : String) : List Char → Except GoError (List Char × List Char)
  | [] => .error io.ErrUnexpectedEOF
  | c :: cs =>
    if isDigit c then .ok (c :: cs.takeWhile isDigit, cs.dropWhile isDigit)
    else .error (syntaxError c context)

/-- Read the integer part of a number: a single `0`, or digits. -/
def scanInt : List Char → Except GoError (List Char × List Char)
  | [] => .error io.ErrUnexpectedEOF
  | c :: r => if c == '0' then .ok (['0'], r) else scanDigits "in numeric literal" (c :: r)

/-- Read the fraction of a number, if there is one: a point and digits. -/
def scanFrac : List Char → Except GoError (List Char × List Char)
  | [] => .ok ([], [])
  | c :: r =>
    if c == '.' then
      match scanDigits "after decimal point in numeric literal" r with
      | .error e => .error e
      | .ok (ds, r') => .ok ('.' :: ds, r')
    else .ok ([], c :: r)

/-- Read the sign of an exponent, if there is one. -/
def scanSign : List Char → List Char × List Char
  | [] => ([], [])
  | c :: r => if c == '+' || c == '-' then ([c], r) else ([], c :: r)

/-- Read the exponent of a number, if there is one: `e` or `E`, an optional
sign, and digits. -/
def scanExp : List Char → Except GoError (List Char × List Char)
  | [] => .ok ([], [])
  | c :: r =>
    if c == 'e' || c == 'E' then
      match scanDigits "in exponent of numeric literal" (scanSign r).2 with
      | .error e => .error e
      | .ok (ds, r') => .ok (c :: ((scanSign r).1 ++ ds), r')
    else .ok ([], c :: r)

/-- Read a number literal: an optional minus sign, the integer part, an
optional fraction and an optional exponent. -/
def scanNumber (cs : List Char) : Except GoError (String × List Char) :=
  let sign : List Char := if hasPrefixList ['-'] cs then ['-'] else []
  match scanInt (cs.drop sign.length) with
  | .error e => .error e
  | .ok (ip, r1) =>
    match scanFrac r1 with
    | .error e => .error e
    | .ok (fp, r2) =>
      match scanExp r2 with
      | .error e => .error e
      | .ok (ep, r3) => .ok (⟨sign ++ ip ++ fp ++ ep⟩, r3)

/-- Read the rest of one of the literals `true`, `false`, `null` after its
first letter. -/
def scanLiteral (name : String) : List Char → List Char → Except GoError (List Char)
  | [], cs => .ok cs
  | _ :: _, [] => .error io.ErrUnexpectedEOF
  | e :: es, c :: cs =>
    if c == e then scanLiteral name es cs
    else .error (syntaxError c ("in literal " ++ name ++ " (expecting " ++ quoteChar e ++ ")"))

mutual
/-- Read one JSON value, skipping the white space before it. -/
def scanValue : Nat → List Char → Except GoError (JSON × List Char)
  | 0, _ => .error budgetError
  | fuel + 1, cs =>
    match skipSpace cs with
    | [] => .error io.ErrUnexpectedEOF
    | c :: r =>
      if c == '{' then
        match skipSpace r with
        | '}' :: r' => .ok (.object [], r')
        | _ => scanMembers fuel r []
      else if c == '[' then
        match skipSpace r with
        | ']' :: r' => .ok (.array [], r')
        | _ => scanElements fuel r []
      else if c == '"' then
        match scanString (r.length + 1) r [] with
        | .error e => .error e
        | .ok (str, r') => .ok (.string str, r')
      else if c == '-' || isDigit c then
        match scanNumber (c :: r) with
        | .error e => .error e
        | .ok (lit, r') => .ok (.number lit, r')
      else if c == 't' then
        match scanLiteral "true" ['r', 'u', 'e'] r with
        | .error e => .error e
        | .ok r' => .ok (.bool true, r')
      else if c == 'f' then
        match scanLiteral "false" ['a', 'l', 's', 'e'] r with
        | .error e => .error e
        | .ok r' => .ok (.bool false, r')
      else if c == 'n' then
        match scanLiteral "null" ['u', 'l', 'l'] r with
        | .error e => .error e
        | .ok r' => .ok (.null, r')
      else .error (syntaxError c "looking for beginning of value")
/-- Read the elements of an array after `[` or after a comma; `acc` holds the
elements read so far. -/
def scanElements : Nat → List Char → List JSON → Except GoError (JSON × List Char)
  | 0, _, _ => .error budgetError
  | fuel + 1, cs, acc =>
    match scanValue fuel cs with
    | .error e => .error e
    | .ok (v, r) =>
      match skipSpace r with
      | [] => .error io.ErrUnexpectedEOF
      | c :: r' =>
        if c == ',' then scanElements fuel r' (acc ++ [v])
        else if c == ']' then .ok (.array (acc ++ [v]), r')
        else .error (syntaxError c "after array element")
/-- Read the members of an object after `{` or after a comma; `acc` holds the
members read so far. -/
def scanMembers : Nat → List Char → List (String × JSON) → Except GoError (JSON × List Char)
  | 0, _, _ => .error budgetError
  | fuel + 1, cs, acc =>
    match skipSpace cs with
    | [] => .error io.ErrUnexpectedEOF
    | c :: r =>
      if c != '"' then .error (syntaxError c "looking for beginning of object key string")
      else
        match scanString (r.length + 1) r [] with
        | .error e => .error e
        | .ok (k, r1) =>
          match skipSpace r1 with
          | [] => .error io.ErrUnexpectedEOF
          | c1 :: r2 =>
            if c1 != ':' then .error (syntaxError c1 "after object key")
            else
              match scanValue fuel r2 with
              | .error e => .error e
              | .ok (v, r3) =>
                match skipSpace r3 with
                | [] => .error io.ErrUnexpectedEOF
                | c3 :: r4 =>
                  if c3 == ',' then scanMembers fuel r4 (acc ++ [(k, v)])
                  else if c3 == '}' then .ok (.object (acc ++ [(k, v)]), r4)
                  else .error (syntaxError c3 "after object key:value pair")
end

/-- The method `Decoder.readValue`: the first JSON value of the stream and
the text left after it.  A stream with nothing but white space gives
`io.EOF`; a stream that ends inside a value gives `io.ErrUnexpectedEOF`; what
follows the first value is not looked at, except for the one character that
ends a number or a literal. -/
def Decoder.readValue (input : String) : Except GoError (JSON × String) :=
  match skipSpace input.data with
  | [] => .error io.EOF
  | c :: cs =>
    match scanValue (2 * cs.length + 4) (c :: cs) with
    | .error e => .error e
    | .ok (j, rest) => .ok (j, ⟨rest⟩)

/-! ## Package `encoding/json`: storing a value into a Go variable -/

/-- The number a string of decimal digits denotes. -/
def digitsValue (ds : List Char) : Nat :=
  ds.foldl (fun n d => 10 * n + (d.toNat - 48)) 0

/-- The least magnitude that rounds to an infinity in `float64`: half way
between the largest finite value and `2^1024`, that is, `2^1024 - 2^970`. -/
def float64Limit : Nat :=
  179769313486231580793728971405303415079934132710037826936173778980444968292764750946649017977587207096330286416692887910946555547851940402630657488671505820681908902000708383676273854845817711531764475730270069855571366959622842914819860834936475292719074168444365510704342711559699508093042880177904174497792

/-- Whether `strconv.ParseFloat(lit, 64)` succeeds on a JSON number literal:
it fails exactly when the literal rounds to an infinity, that is, when its
magnitude is at least `float64Limit`. -/
def float64InRange (lit : String) : Bool :=
  let cs := lit.data.dropWhile (fun c => c == '-')
  let ip := cs.takeWhile isDigit
  let r1 := cs.dropWhile isDigit
  let fp := match r1 with
    | '.' :: r => r.takeWhile isDigit
    | _ => []
  let r2 := match r1 with
    | '.' :: r => r.dropWhile isDigit
    | _ => r1
  let eneg := match r2 with
    | _ :: '-' :: _ => true
    | _ => false
  let ed := match r2 with
    | _ :: '-' :: r => r
    | _ :: '+' :: r => r
    | _ :: r => r
    | [] => []
  let m := digitsValue (ip ++ fp)
  let e := digitsValue ed
  let limit := float64Limit
  if m == 0 then true
  else if eneg then m < limit * 10 ^ (e + fp.length)
  else if fp.length ≤ e then m * 10 ^ (e - fp.length) < limit
  else m < limit * 10 ^ (fp.length - e)

/-- A `json.UnmarshalTypeError`. -/
def UnmarshalTypeError (value type : String) : GoError :=
  .lib ("json: cannot unmarshal " ++ value ++ " into Go value of type " ++ type)

/-- The first of two optional errors: the decoder keeps the first error it
saved. -/
def firstError : Option GoError → Option GoError → Option GoError
  | some e, _ => some e
  | none, e => e

/-- Assignment `m[k] = v` on a map kept in increasing key order. -/
def mapInsert (k : String) (v : Value) : List (String × Value) → List (String × Value)
  | [] => [(k, v)]
  | (k', v') :: rest =>
    if k == k' then (k, v) :: rest
    else if lessString k k' then (k, v) :: (k', v') :: rest
    else (k', v') :: mapInsert k v rest

mutual
/-- The value stored into an empty `interface{}` for a JSON value, and the
error saved while doing so.  A number becomes a `json.Number` under
`UseNumber` and a `float64` otherwise; a number out of the `float64` range
stores nil and saves an error.  In an object a repeated key overwrites. -/
def JSON.toInterface (useNumber : Bool) : JSON → Value × Option GoError
  | .null => (.nil, none)
  | .bool b => (.bool b, none)
  | .number lit =>
    if useNumber then (.Number lit, none)
    else if float64InRange lit then (.float64 lit, none)
    else (.nil, some (UnmarshalTypeError ("number " ++ lit) "float64"))
  | .string s => (.string s, none)
  | .array xs => (.slice (toInterfaceList useNumber xs).1, (toInterfaceList useNumber xs).2)
  | .object ms =>
    (.map ((toInterfaceMembers useNumber ms).1.foldl (fun m kv => mapInsert kv.1 kv.2 m) []),
     (toInterfaceMembers useNumber ms).2)
/-- The elements of an array, stored in order. -/
def toInterfaceList (useNumber : Bool) : List JSON → List Value × Option GoError
  | [] => ([], none)
  | x :: xs =>
    ((x.toInterface useNumber).1 :: (toInterfaceList useNumber xs).1,
     firstError (x.toInterface useNumber).2 (toInterfaceList useNumber xs).2)
/-- The members of an object, stored in order. -/
def toInterfaceMembers (useNumber : Bool) : List (String × JSON) → List (String × Value) × Option GoError
  | [] => ([], none)
  | (k, x) :: rest =>
    ((k, (x.toInterface useNumber).1) :: (toInterfaceMembers useNumber rest).1,
     firstError (x.toInterface useNumber).2 (toInterfaceMembers useNumber rest).2)
end

/-- The kind of a JSON value as an `UnmarshalTypeError` names it. -/
def JSON.kind : JSON → String
  | .null => "null"
  | .bool _ => "bool"
  | .number _ => "number"
  | .string _ => "string"
  | .array _ => "array"
  | .object _ => "object"

/-- Simple case folding of one character, as far as it can reach an ASCII
letter: lower-case ASCII letters, the long s (U+017F) and the Kelvin sign
(U+212A) fold to the upper-case ASCII letter. -/
def foldChar (c : Char) : Char :=
  let n := c.toNat
  if 97 ≤ n && n ≤ 122 then Char.ofNat (n - 32)
  else if n == 0x17F then 'S'
  else if n == 0x212A then 'K'
  else c

/-- Whether an object key selects the struct field with the ASCII name
`name`: the decoder accepts a key that equals the name under case folding
(`bytes.EqualFold`), an exact match included. -/
def keyMatches (name key : String) : Bool :=
  key.data.map foldChar == name.data.map foldChar

/-- The method `Decoder.Decode`: read the first JSON value of the input and
store it into the target with `store`, which yields the updated target and
the error saved on the way.  When no value can be read the target is left as
it is and the reading error is returned. -/
def Decoder.Decode {T : Type} (store : JSON → T → T × Option GoError) (input : String)
    (target : T) : T × Option GoError :=
  match Decoder.readValue input with
  | .error e => (target, some e)
  | .ok (j, _) => store j target

/-- Storing into a variable of type `interface{}`. -/
def storeInterface (useNumber : Bool) (j : JSON) (_ : Value) : Value × Option GoError :=
  j.toInterface useNumber

/-- Whether the whole text is one JSON value with nothing but white space
around it (`json.Valid`). -/
def json.Valid (src : String) : Bool :=
  match Decoder.readValue src with
  | .error _ => false
  | .ok (_, rest) => skipSpace rest.data == []

/-- Copy JSON text without the white space that stands outside string
literals; `inString` and `escaped` say where the copy stands. -/
def compactChars : Bool → Bool → List Char → List Char
  | _, _, [] => []
  | true, true, c :: cs => c :: compactChars true false cs
  | true, false, c :: cs =>
    if c == '\\' then c :: compactChars true true cs
    else if c == '"' then c :: compactChars false false cs
    else c :: compactChars true false cs
  | false, _, c :: cs =>
    if isSpace c then compactChars false false cs
    else if c == '"' then c :: compactChars true false cs
    else c :: compactChars false false cs

/-- The Go function `json.Compact`: the text without insignificant white
space, or an error when the text is not valid JSON. -/
def json.Compact (src : String) : Except GoError String :=
  if json.Valid src then .ok ⟨compactChars false false src.data⟩
  else .error (.lib "invalid JSON")

/-! ## Byte slices -/

/-- The bytes of a string: its UTF-8 encoding. -/
def utf8Bytes (s : String) : List UInt8 :=
  s.data.flatMap String.utf8EncodeChar

/-- A Go slice of bytes: `array` is the backing array from the first element
of the slice up to its capacity, `len` is the length of the slice. -/
structure ByteSlice where
  array : List UInt8
  len : Nat

/-- The slice expression `s[:hi]` of Go.  For a slice the upper index is
checked against the capacity, not against the length: within the capacity it
yields the first `hi` bytes of the backing array, beyond it the program
panics (`none`). -/
def ByteSlice.upTo (s : ByteSlice) (hi : Nat) : Option (List UInt8) :=
  if hi ≤ s.array.length then some (s.array.take hi) else none

/-- The method `Bytes` of a `bytes.Buffer` that holds `content`: a slice of
that length whose backing array goes on with the unused capacity `spare` of
the buffer. -/
def Buffer.Bytes (content spare : List UInt8) : ByteSlice :=
  { array := content ++ spare, len := content.length }

/-! ## The outside world -/

/-- An HTTP header: canonical keys with their values. -/
abbrev Header := List (String × List String)

/-- Token characters of RFC 7230, the characters of a valid header key. -/
def isTokenChar (c : Char) : Bool :=
  let n := c.toNat
  (48 ≤ n && n ≤ 57) || (65 ≤ n && n ≤ 90) || (97 ≤ n && n ≤ 122) ||
  "!#$%&'*+-.^_`|~".data.contains c

/-- The pass of `CanonicalMIMEHeaderKey` over the characters of a valid key:
the first letter and every letter after a hyphen in upper case, the other
letters in lower case. -/
def canonicalChars : Bool → List Char → List Char
  | _, [] => []
  | upper, c :: cs =>
    let n := c.toNat
    let c' :=
      if upper && 97 ≤ n && n ≤ 122 then Char.ofNat (n - 32)
      else if !upper && 65 ≤ n && n ≤ 90 then Char.ofNat (n + 32)
      else c
    c' :: canonicalChars (c == '-') cs

/-- The Go function `textproto.CanonicalMIMEHeaderKey`; a key with a
character that is not a token character is returned as it is. -/
def CanonicalMIMEHeaderKey (k : String) : String :=
  if k.data.all isTokenChar then ⟨canonicalChars true k.data⟩ else k

/-- Replace the entry of a key, or add one at the end. -/
def setEntry (k : String) (vs : List String) : Header → Header
  | [] => [(k, vs)]
  | (k', vs') :: rest => if k' == k then (k, vs) :: rest else (k', vs') :: setEntry k vs rest

/-- The method `Header.Set`. -/
def Header.Set (h : Header) (key value : String) : Header :=
  setEntry (CanonicalMIMEHeaderKey key) [value] h

/-- The values of a key. -/
def lookupEntry (k : String) : Header → List String
  | [] => []
  | (k', vs) :: rest => if k' == k then vs else lookupEntry k rest

/-- The method `Header.Get`: the first value of the key, or the empty
string. -/
def Header.Get (h : Header) (key : String) : String :=
  match lookupEntry (CanonicalMIMEHeaderKey key) h with
  | [] => ""
  | v :: _ => v

/-- An HTTP request as `http.NewRequest` builds it and the loop over the
headers completes it. -/
structure Request where
  Method : String
  URL : String
  Header : Header
  Body : String

/-- An HTTP response, its body read to the end. -/
structure Response where
  StatusCode : Int
  Header : Header
  Body : String

/-- What the outside world answers to the program: whether `http.NewRequest`
rejects a URL, the outcome of `http.DefaultClient.Do`, of `ioutil.ReadFile`,
of `os.MkdirAll` and of `ioutil.WriteFile`. -/
structure World where
  urlError : String → Option GoError
  roundTrip : Request → Except GoError Response
  ReadFile : String → Except GoError String
  MkdirAll : String → Nat → Option GoError
  WriteFile : String → String → Nat → Option GoError

/-- What the program does to the outside world. -/
inductive Effect where
  | httpDo (req : Request)
  | MkdirAll (path : String) (perm : Nat)
  | WriteFile (filename : String) (data : String) (perm : Nat)
  | stdout (text : String)
  | stderr (text : String)
  | Sleep (d : Int)

/-! ## jsonflag (`vendor/github.com/tsandall/jsonflag/jsonflag.go`) -/

/-- The flag type `Var`; `Value` is nil (`none`) until the flag is set. -/
structure Var where
  UseNumber : Bool
  Value : Option Value

/-- The method `Var.Set`: the flag after the call and the error returned.
The argument is trimmed; an empty argument changes nothing; after `@` the
rest names a file whose contents are decoded, otherwise the argument itself
is decoded; only a successful `Decode` assigns `flg.Value`. -/
def Var.Set (w : World) (flg : Var) (s : String) : Var × Option GoError :=
  let s := strings.TrimSpace s
  if s == "" then (flg, none)
  else
    let read : Except GoError String :=
      if strings.HasPrefix s "@" then w.ReadFile ⟨s.data.drop 1⟩ else .ok s
    match read with
    | .error err => (flg, some err)
    | .ok bs =>
      match Decoder.Decode (storeInterface flg.UseNumber) bs Value.nil with
      | (_, some err) => (flg, some err)
      | (v, none) => ({ flg with Value := some v }, none)

/-- The method `Var.String`, as the bytes of the string it returns; `none`
is a panic.  `spare` is the unused capacity of the `bytes.Buffer` that
`json.Compact` wrote to, which the source does not control. -/
def Var.String (spare : List UInt8) (flg : Var) : Option (List UInt8) :=
  match flg.Value with
  | none => some (utf8Bytes "undefined")
  | some v =>
    match json.Compact (json.Marshal v) with
    | .error _ => none
    | .ok buf => (Buffer.Bytes (utf8Bytes buf) spare).upTo 10

/-! ## main (`main.go`) -/

/-- The struct `config`; `headers` lists the entries of the Go map and
`delay` is a `time.Duration`, a number of nanoseconds. -/
structure config where
  url : String
  headers : List (String × String)
  output : String
  input : Option Value
  delay : Int

/-- The struct `client`. -/
structure client where
  url : String
  input : Option Value
  headers : List (String × String)

/-- The struct `dataRequestV1`, whose field is tagged `input,omitempty`. -/
structure dataRequestV1 where
  Input : Option Value

/-- The struct `dataResponseV1`, whose field is tagged `result,omitempty`. -/
structure dataResponseV1 where
  Result : Option Value

/-- The JSON encoding of a `dataRequestV1`: the field is left out when the
pointer is nil and holds the encoding of the value pointed to otherwise. -/
def dataRequestV1.marshal (r : dataRequestV1) : String :=
  match r.Input with
  | none => "\x7b\x7d"
  | some v => "\x7b\"input\":" ++ json.Marshal v ++ "\x7d"

/-- The method `Encoder.Encode` on a `dataRequestV1`: what it writes to the
buffer, the JSON encoding followed by a newline. -/
def Encoder.Encode (r : dataRequestV1) : String :=
  r.marshal ++ "\n"

/-- Storing one member of an object into a `dataResponseV1`.  A key that
matches `result` sets the pointer: to nil for JSON null, to a fresh value
otherwise. -/
def dataResponseV1.storeMember (acc : dataResponseV1 × Option GoError) (kv : String × JSON) :
    dataResponseV1 × Option GoError :=
  if keyMatches "result" kv.1 then
    match kv.2 with
    | .null => ({ Result := none }, acc.2)
    | x => ({ Result := some (x.toInterface false).1 }, firstError acc.2 (x.toInterface false).2)
  else acc

/-- Storing a JSON value into a `dataResponseV1`: null changes nothing, an
object stores its members in order, anything else is a type error. -/
def dataResponseV1.store (j : JSON) (t : dataResponseV1) : dataResponseV1 × Option GoError :=
  match j with
  | .null => (t, none)
  | .object ms => ms.foldl dataResponseV1.storeMember (t, none)
  | _ => (t, some (UnmarshalTypeError j.kind "main.dataResponseV1"))

/-- Storing a JSON value into a Go `string` field: a string is assigned,
null changes nothing, anything else is a type error. -/
def storeString (x : JSON) (old : String) : String × Option GoError :=
  match x with
  | .string s => (s, none)
  | .null => (old, none)
  | _ => (old, some (UnmarshalTypeError x.kind "string"))

/-- Storing one member of an object into an `errorResponseV1`. -/
def errorResponseV1.storeMember (acc : errorResponseV1 × Option GoError) (kv : String × JSON) :
    errorResponseV1 × Option GoError :=
  if keyMatches "code" kv.1 then
    ({ acc.1 with Code := (storeString kv.2 acc.1.Code).1 },
     firstError acc.2 (storeString kv.2 acc.1.Code).2)
  else if keyMatches "message" kv.1 then
    ({ acc.1 with Message := (storeString kv.2 acc.1.Message).1 },
     firstError acc.2 (storeString kv.2 acc.1.Message).2)
  else acc

/-- Storing a JSON value into an `errorResponseV1`. -/
def errorResponseV1.store (j : JSON) (t : errorResponseV1) : errorResponseV1 × Option GoError :=
  match j with
  | .null => (t, none)
  | .object ms => ms.foldl errorResponseV1.storeMember (t, none)
  | _ => (t, some (UnmarshalTypeError j.kind "main.errorResponseV1"))

/-- The method `client.handleError`.  It looks at the `Content-Type` header
only: when that contains `application/json` the body is decoded into an
`errorResponseV1`, which is the error returned unless decoding fails, in
which case the decoding error is returned; otherwise the error names the
status code. -/
def client.handleError (_ : client) (resp : Response) : GoError :=
  if strings.Contains (resp.Header.Get "Content-Type") "application/json" then
    match Decoder.Decode errorResponseV1.store resp.Body { Code := "", Message := "" } with
    | (_, some err) => err
    | (e, none) => .response e
  else .errorf ("status " ++ toString resp.StatusCode ++ ": unknown error")

/-- The method `client.handleSuccess`: `return result.Result, Decode(&result)`.
The Go compiler evaluates the call before it reads the variable, so the
first result is the field after decoding. -/
def client.handleSuccess (_ : client) (resp : Response) : Option Value × Option GoError :=
  let decoded := Decoder.Decode dataResponseV1.store resp.Body { Result := none }
  (decoded.1.Result, decoded.2)

/-- The request `client.Do` builds: the method and the buffer chosen from
`c.input`, the URL, and the headers set one by one. -/
def client.request (c : client) : Request :=
  let shape : String × String :=
    match c.input with
    | some _ => ("POST", Encoder.Encode { Input := c.input })
    | none => ("GET", "")
  { Method := shape.1, URL := c.url,
    Header := c.headers.foldl (fun h kv => Header.Set h kv.1 kv.2) [],
    Body := shape.2 }

/-- The method `client.Do`: its two results and the requests sent. -/
def client.Do (w : World) (c : client) : (Option Value × Option GoError) × List Effect :=
  match w.urlError c.url with
  | some err => ((none, some err), [])
  | none =>
    match w.roundTrip c.request with
    | .error err => ((none, some err), [.httpDo c.request])
    | .ok resp =>
      if resp.StatusCode ≠ 200 then ((none, some (c.handleError resp)), [.httpDo c.request])
      else (c.handleSuccess resp, [.httpDo c.request])

/-- The function `oneShot`: the error returned and the effects of one
cycle. -/
def oneShot (w : World) (cfg : config) : Option GoError × List Effect :=
  let c : client := { url := cfg.url, headers := cfg.headers, input := cfg.input }
  match c.Do w with
  | ((_, some err), log) => (some (.wrapf err "request failed"), log)
  | ((none, none), log) => (none, log)
  | ((some result, none), log) =>
    match result with
    | .string r =>
      if cfg.output ≠ "" then
        match w.MkdirAll (path.Dir cfg.output) 755 with
        | some err => (some (.wrapf err "mkdir failed"), log ++ [.MkdirAll (path.Dir cfg.output) 755])
        | none =>
          match w.WriteFile cfg.output r 0o644 with
          | some err =>
            (some (.wrapf err "write failed"),
             log ++ [.MkdirAll (path.Dir cfg.output) 755, .WriteFile cfg.output r 0o644])
          | none =>
            (none, log ++ [.MkdirAll (path.Dir cfg.output) 755, .WriteFile cfg.output r 0o644])
      else (none, log ++ [.stdout (r ++ "\n")])
    | v => (some (.errorf ("bad result type " ++ v.typeName ++ ": expected string")), log)

/-- The body of the loop in `run`: one call of `oneShot`, the error printed
to standard error if there is one, and the sleep. -/
def run.iteration (w : World) (cfg : config) : List Effect :=
  (oneShot w cfg).2 ++
    (match (oneShot w cfg).1 with
     | some err => [.stderr (err.Error ++ "\n")]
     | none => []) ++
    [.Sleep cfg.delay]

/-- The function `run`, observed for `n` turns of its loop, where `ws i` is
the outside world during turn `i`: the effects so far, and whether `run` has
returned (`some ()`) or is still in its loop (`none`).  The loop `for { ... }`
has no condition, no `break` and no `return`. -/
def run (ws : Nat → World) (cfg : config) : Nat → Option Unit × List Effect
  | 0 => (none, [])
  | n + 1 =>
    ((run (fun i => ws (i + 1)) cfg n).1,
     run.iteration (ws 0) cfg ++ (run (fun i => ws (i + 1)) cfg n).2)

/-- The closure `Run` of the command in `main`: the configuration handed to
`run`, from the base URL, the input flag and the positional arguments.  The
command accepts one or two arguments (`cobra.RangeArgs(1, 2)`); without an
argument `args[0]` would panic (`none`). -/
def main.Run (baseURL : String) (inputFlag : Var) (cfg : config) (args : List String) :
    Option config :=
  match args with
  | [] => none
  | a :: rest =>
    let path := strings.Trim a "/"
    let path := if path != "" then "/" ++ path else path
    some { cfg with
      input := inputFlag.Value
      url := strings.TrimRight baseURL "/" ++ "/v1/data" ++ path
      output := match rest with
        | [] => cfg.output
        | o :: _ => o }

/-! ## Observations and test data -/

/-- A world in which every operation succeeds and the server answers every
request with status 200 and the given body. -/
def World.answering (body : String) : World :=
  { urlError := fun _ => none
    roundTrip := fun _ => .ok { StatusCode := 200, Header := [], Body := body }
    ReadFile := fun _ => .error (.lib "open: no such file or directory")
    MkdirAll := fun _ _ => none
    WriteFile := fun _ _ _ => none }

/-- A world in which every operation succeeds and the server answers every
request with the given response. -/
def World.responding (resp : Response) : World :=
  { urlError := fun _ => none
    roundTrip := fun _ => .ok resp
    ReadFile := fun _ => .error (.lib "open: no such file or directory")
    MkdirAll := fun _ _ => none
    WriteFile := fun _ _ _ => none }

/-- A client without input and without headers. -/
def client.plain : client :=
  { url := "http://x/v1/data/foo/bar", input := none, headers := [] }

/-- Whether an effect writes to the output sink: the file or standard
output. -/
def Effect.isSinkWrite : Effect → Bool
  | .WriteFile _ _ _ => true
  | .stdout _ => true
  | _ => false

/-- The writes to the output sink among some effects, in order. -/
def sinkWrites (log : List Effect) : List Effect :=
  log.filter Effect.isSinkWrite

/-- The client `oneShot` makes from a configuration. -/
def config.client (cfg : config) : client :=
  { url := cfg.url, headers := cfg.headers, input := cfg.input }

/-- A configuration without input and headers that writes to `output`. -/
def config.writingTo (output : String) : config :=
  { url := "http://x/v1/data/foo/bar", headers := [], output := output, input := none,
    delay := 60000000000 }

/-- A world in which the server answers `{"result":"hello"}` with status 200
and no directory can be created. -/
def World.readOnly : World :=
  { urlError := fun _ => none
    roundTrip := fun _ => .ok { StatusCode := 200, Header := [], Body := "\x7b\"result\":\"hello\"\x7d" }
    ReadFile := fun _ => .error (.lib "open: no such file or directory")
    MkdirAll := fun _ _ => some (.lib "mkdir out: read-only file system")
    WriteFile := fun _ _ _ => some (.lib "open out/result.txt: read-only file system") }

/-- The duration of a sleep, for an effect that is one. -/
def Effect.sleepDuration : Effect → Option Int
  | .Sleep d => some d
  | _ => none

/-- The durations of the sleeps among some effects, in order. -/
def sleeps (log : List Effect) : List Int :=
  log.filterMap Effect.sleepDuration

/-- A scanning result that stayed within its budget: an error other than
`budgetError`, or a value together with a rest of at most `n` characters. -/
def Scanned {α : Type} (n : Nat) (r : Except GoError (α × List Char)) : Prop :=
  match r with
  | .error e => e ≠ budgetError
  | .ok (_, rest) => rest.length ≤ n

/-! ## Lemmas: the scanner stays within its budget -/

/-- A syntax error is not the budget error. -/
theorem syntaxError_ne_budget (c : Char) (ctx : String) : syntaxError c ctx ≠ budgetError := by
  intro h
  have hd : ("invalid character " ++ quoteChar c ++ " " ++ ctx).data.head? =
      "json: scanning budget exhausted".data.head? := by
    unfold syntaxError budgetError at h
    injection h with h
    rw [h]
  simp at hd

/-- The error `io.ErrUnexpectedEOF` is not the budget error. -/
theorem eof_ne_budget : io.ErrUnexpectedEOF ≠ budgetError := by
  intro h
  unfold io.ErrUnexpectedEOF budgetError at h
  injection h with h
  exact absurd h (by decide)

/-- A larger bound on the rest is weaker. -/
theorem Scanned.mono {α : Type} {n m : Nat} {r : Except GoError (α × List Char)}
    (h : Scanned n r) (hnm : n ≤ m) : Scanned m r := by
  cases r with
  | error e => exact h
  | ok p => exact Nat.le_trans h hnm

/-- Dropping a prefix does not lengthen a list. -/
theorem dropWhile_length_le (p : Char → Bool) (cs : List Char) :
    (cs.dropWhile p).length ≤ cs.length := by
  induction cs with
  | nil => exact Nat.le_refl _
  | cons c cs ih =>
    by_cases hc : p c = true
    · rw [List.dropWhile_cons_of_pos hc]
      exact Nat.le_succ_of_le ih
    · rw [List.dropWhile_cons_of_neg hc]

/-- Skipping white space does not lengthen the input. -/
theorem skipSpace_length (cs : List Char) : (skipSpace cs).length ≤ cs.length :=
  dropWhile_length_le _ _

/-- Reading hexadecimal digits stays within budget. -/
theorem scanHex4_scanned (k acc : Nat) (cs : List Char) :
    Scanned cs.length (scanHex4 k acc cs) := by
  induction k generalizing acc cs with
  | zero => exact Nat.le_refl _
  | succ k ih =>
    cases cs with
    | nil => exact eof_ne_budget
    | cons c cs =>
      unfold scanHex4
      split
      · exact (ih _ cs).mono (Nat.le_succ _)
      · exact syntaxError_ne_budget _ _

/-- Reading a string literal with more fuel than characters stays within
budget and consumes at least the closing quote. -/
theorem scanString_scanned (fuel : Nat) (cs acc : List Char) (h : cs.length < fuel) :
    Scanned (cs.length - 1) (scanString fuel cs acc) := by
  induction fuel generalizing cs acc with
  | zero => omega
  | succ fuel ih =>
    cases cs with
    | nil => exact eof_ne_budget
    | cons c cs =>
      have hlen : cs.length < fuel := by simpa using h
      unfold scanString
      split
      · exact Nat.le_refl _
      · split
        · split
          · exact eof_ne_budget
          · rename_i e rest
            have hrest : rest.length < fuel := by
              simp only [List.length_cons] at hlen; omega
            split
            · have hx := scanHex4_scanned 4 0 rest
              split
              · rename_i err herr
                rw [herr] at hx
                exact hx
              · rename_i rr rest' hok
                rw [hok] at hx
                have hx' : rest'.length ≤ rest.length := hx
                have hdrop : (rest'.drop 6).length ≤ rest'.length := by
                  rw [List.length_drop]; omega
                have hb : ∀ (l : List Char) (a : List Char), l.length ≤ rest'.length →
                    Scanned ((c :: e :: rest).length - 1) (scanString fuel l a) := by
                  intro l a hl
                  refine (ih l a (by omega)).mono ?_
                  simp only [List.length_cons]
                  omega
                split
                · split
                  · split
                    · exact hb _ _ hdrop
                    · exact hb _ _ (Nat.le_refl _)
                  · exact hb _ _ (Nat.le_refl _)
                · exact hb _ _ (Nat.le_refl _)
            · split
              · refine (ih rest _ hrest).mono ?_
                simp only [List.length_cons]
                omega
              · exact syntaxError_ne_budget _ _
        · split
          · exact syntaxError_ne_budget _ _
          · refine (ih cs _ hlen).mono ?_
            simp only [List.length_cons]
            omega

/-- Reading digits consumes at least one character. -/
theorem scanDigits_scanned (ctx : String) (cs : List Char) :
    Scanned (cs.length - 1) (scanDigits ctx cs) := by
  cases cs with
  | nil => exact eof_ne_budget
  | cons c cs =>
    simp only [scanDigits]
    split
    · exact dropWhile_length_le _ _
    · exact syntaxError_ne_budget _ _

/-- Reading the rest of a literal stays within budget. -/
theorem scanLiteral_scanned (name : String) (es cs : List Char) :
    scanLiteral name es cs ≠ .error budgetError ∧
    ∀ r, scanLiteral name es cs = .ok r → r.length ≤ cs.length := by
  induction es generalizing cs with
  | nil =>
    refine ⟨by simp [scanLiteral], ?_⟩
    intro r h
    simp [scanLiteral] at h
    rw [← h]
  | cons e es ih =>
    cases cs with
    | nil =>
      refine ⟨?_, by simp [scanLiteral]⟩
      simp only [scanLiteral]
      intro h
      injection h with h
      exact eof_ne_budget h
    | cons c cs =>
      unfold scanLiteral
      split
      · refine ⟨(ih cs).1, ?_⟩
        intro r h
        exact Nat.le_succ_of_le ((ih cs).2 r h)
      · refine ⟨?_, by simp⟩
        intro h
        injection h with h
        exact syntaxError_ne_budget _ _ h

/-- Reading an integer part consumes at least one character. -/
theorem scanInt_scanned (cs : List Char) : Scanned (cs.length - 1) (scanInt cs) := by
  cases cs with
  | nil => exact eof_ne_budget
  | cons c r =>
    simp only [scanInt]
    split
    · exact Nat.le_refl _
    · exact scanDigits_scanned _ _

/-- Reading an optional fraction does not lengthen the input. -/
theorem scanFrac_scanned (cs : List Char) : Scanned cs.length (scanFrac cs) := by
  cases cs with
  | nil => exact Nat.le_refl _
  | cons c r =>
    simp only [scanFrac]
    split
    · have h := scanDigits_scanned "after decimal point in numeric literal" r
      split
      · rename_i e he
        rw [he] at h
        exact h
      · rename_i ds r' hok
        rw [hok] at h
        have h' : r'.length ≤ r.length - 1 := h
        show r'.length ≤ (c :: r).length
        simp only [List.length_cons]
        omega
    · exact Nat.le_refl _

/-- Reading an optional sign does not lengthen the input. -/
theorem scanSign_length (cs : List Char) : (scanSign cs).2.length ≤ cs.length := by
  cases cs with
  | nil => exact Nat.le_refl _
  | cons c r =>
    simp only [scanSign]
    split
    · exact Nat.le_succ _
    · exact Nat.le_refl _

/-- Reading an optional exponent does not lengthen the input. -/
theorem scanExp_scanned (cs : List Char) : Scanned cs.length (scanExp cs) := by
  cases cs with
  | nil => exact Nat.le_refl _
  | cons c r =>
    simp only [scanExp]
    split
    · have h := scanDigits_scanned "in exponent of numeric literal" (scanSign r).2
      have hs := scanSign_length r
      split
      · rename_i e he
        rw [he] at h
        exact h
      · rename_i ds r' hok
        rw [hok] at h
        have h' : r'.length ≤ (scanSign r).2.length - 1 := h
        show r'.length ≤ (c :: r).length
        simp only [List.length_cons]
        omega
    · exact Nat.le_refl _

/-- Reading a number consumes at least one character. -/
theorem scanNumber_scanned (cs : List Char) : Scanned (cs.length - 1) (scanNumber cs) := by
  unfold scanNumber
  dsimp only
  have h0 : (cs.drop (if hasPrefixList ['-'] cs = true then ['-'] else []).length).length ≤
      cs.length := by
    rw [List.length_drop]
    omega
  have h1 := scanInt_scanned (cs.drop (if hasPrefixList ['-'] cs = true then ['-'] else []).length)
  split
  · rename_i e he
    rw [he] at h1
    exact h1
  · rename_i ip r1 hok1
    rw [hok1] at h1
    have h1' : r1.length ≤
        (cs.drop (if hasPrefixList ['-'] cs = true then ['-'] else []).length).length - 1 := h1
    have h2 := scanFrac_scanned r1
    split
    · rename_i e he
      rw [he] at h2
      exact h2
    · rename_i fp r2 hok2
      rw [hok2] at h2
      have h2' : r2.length ≤ r1.length := h2
      have h3 := scanExp_scanned r2
      split
      · rename_i e he
        rw [he] at h3
        exact h3
      · rename_i ep r3 hok3
        rw [hok3] at h3
        have h3' : r3.length ≤ r2.length := h3
        show r3.length ≤ cs.length - 1
        omega
/-- With fuel of at least twice the length of the input plus one (plus two
for the elements of an array and the members of an object) the scanner
stays within budget and consumes at least one character. -/
theorem scan_scanned (fuel : Nat) :
    (∀ cs, 2 * cs.length + 1 ≤ fuel → Scanned (cs.length - 1) (scanValue fuel cs)) ∧
    (∀ cs acc, 2 * cs.length + 2 ≤ fuel → Scanned (cs.length - 1) (scanElements fuel cs acc)) ∧
    (∀ cs acc, 2 * cs.length + 2 ≤ fuel → Scanned (cs.length - 1) (scanMembers fuel cs acc)) := by
  induction fuel with
  | zero => refine ⟨?_, ?_, ?_⟩ <;> intros <;> omega
  | succ fuel ih =>
    obtain ⟨ihV, ihE, ihM⟩ := ih
    refine ⟨?_, ?_, ?_⟩
    · intro cs h
      have hs := skipSpace_length cs
      rw [scanValue]
      split
      · exact eof_ne_budget
      · rename_i c r hsk
        rw [hsk] at hs
        simp only [List.length_cons] at hs
        have hr := skipSpace_length r
        split
        · split
          · rename_i r' hr'
            rw [hr'] at hr
            simp only [List.length_cons] at hr
            show r'.length ≤ cs.length - 1
            omega
          · exact (ihM r [] (by omega)).mono (by omega)
        · split
          · split
            · rename_i r' hr'
              rw [hr'] at hr
              simp only [List.length_cons] at hr
              show r'.length ≤ cs.length - 1
              omega
            · exact (ihE r [] (by omega)).mono (by omega)
          · split
            · have hx := scanString_scanned (r.length + 1) r [] (Nat.lt_succ_self _)
              split
              · rename_i e he
                rw [he] at hx
                exact hx
              · rename_i str r' hok
                rw [hok] at hx
                have hx' : r'.length ≤ r.length - 1 := hx
                show r'.length ≤ cs.length - 1
                omega
            · split
              · have hx := scanNumber_scanned (c :: r)
                split
                · rename_i e he
                  rw [he] at hx
                  exact hx
                · rename_i lit r' hok
                  rw [hok] at hx
                  have hx' : r'.length ≤ (c :: r).length - 1 := hx
                  simp only [List.length_cons] at hx'
                  show r'.length ≤ cs.length - 1
                  omega
              · split
                · have hx := scanLiteral_scanned "true" ['r', 'u', 'e'] r
                  split
                  · rename_i e he
                    intro hb
                    rw [hb] at he
                    exact hx.1 he
                  · rename_i r' hok
                    have hx' := hx.2 r' hok
                    show r'.length ≤ cs.length - 1
                    omega
                · split
                  · have hx := scanLiteral_scanned "false" ['a', 'l', 's', 'e'] r
                    split
                    · rename_i e he
                      intro hb
                      rw [hb] at he
                      exact hx.1 he
                    · rename_i r' hok
                      have hx' := hx.2 r' hok
                      show r'.length ≤ cs.length - 1
                      omega
                  · split
                    · have hx := scanLiteral_scanned "null" ['u', 'l', 'l'] r
                      split
                      · rename_i e he
                        intro hb
                        rw [hb] at he
                        exact hx.1 he
                      · rename_i r' hok
                        have hx' := hx.2 r' hok
                        show r'.length ≤ cs.length - 1
                        omega
                    · exact syntaxError_ne_budget _ _
    · intro cs acc h
      rw [scanElements]
      have hv := ihV cs (by omega)
      split
      · rename_i e he
        rw [he] at hv
        exact hv
      · rename_i v r hok
        rw [hok] at hv
        have hv' : r.length ≤ cs.length - 1 := hv
        have hr := skipSpace_length r
        split
        · exact eof_ne_budget
        · rename_i c r' hr'
          rw [hr'] at hr
          simp only [List.length_cons] at hr
          split
          · exact (ihE r' _ (by omega)).mono (by omega)
          · split
            · show r'.length ≤ cs.length - 1
              omega
            · exact syntaxError_ne_budget _ _
    · intro cs acc h
      rw [scanMembers]
      have hs := skipSpace_length cs
      split
      · exact eof_ne_budget
      · rename_i c r hsk
        rw [hsk] at hs
        simp only [List.length_cons] at hs
        split
        · exact syntaxError_ne_budget _ _
        · have hx := scanString_scanned (r.length + 1) r [] (Nat.lt_succ_self _)
          split
          · rename_i e he
            rw [he] at hx
            exact hx
          · rename_i k r1 hok
            rw [hok] at hx
            have hx' : r1.length ≤ r.length - 1 := hx
            have hr1 := skipSpace_length r1
            split
            · exact eof_ne_budget
            · rename_i c1 r2 hr2
              rw [hr2] at hr1
              simp only [List.length_cons] at hr1
              split
              · exact syntaxError_ne_budget _ _
              · have hv := ihV r2 (by omega)
                split
                · rename_i e he
                  rw [he] at hv
                  exact hv
                · rename_i v r3 hok3
                  rw [hok3] at hv
                  have hv' : r3.length ≤ r2.length - 1 := hv
                  have hr3 := skipSpace_length r3
                  split
                  · exact eof_ne_budget
                  · rename_i c3 r4 hr4
                    rw [hr4] at hr3
                    simp only [List.length_cons] at hr3
                    split
                    · exact (ihM r4 _ (by omega)).mono (by omega)
                    · split
                      · show r4.length ≤ cs.length - 1
                        omega
                      · exact syntaxError_ne_budget _ _

/-- The budget `readValue` gives to the scanner is never used up: reading
fails only with an error of the decoder. -/
theorem readValue_within_budget (input : String) :
    Decoder.readValue input ≠ .error budgetError := by
  unfold Decoder.readValue
  split
  · intro h
    injection h with h
    unfold io.EOF budgetError at h
    injection h with h
    exact absurd h (by decide)
  · rename_i c cs hsk
    have hv := (scan_scanned (2 * cs.length + 4)).1 (c :: cs)
      (by simp only [List.length_cons]; omega)
    split
    · rename_i e he
      rw [he] at hv
      intro h
      injection h with h
      exact hv h
    · intro h
      cases h

/-! ## Lemmas: the client and the loop -/

/-- The encoding of a map with the single key `input`. -/
theorem marshal_input_object (v : Value) :
    json.Marshal (.map [("input", v)]) = "\x7b\"input\":" ++ json.Marshal v ++ "\x7d" := by
  apply String.ext
  simp [json.Marshal, marshalChars, marshalFields, sortByKey, insertByKey, joinFields]
  rfl

/-- `Do` sends at most one request, the one `client.request` describes. -/
theorem client_Do_log (w : World) (c : client) :
    (c.Do w).2 = [] ∨ (c.Do w).2 = [Effect.httpDo c.request] := by
  unfold client.Do
  split
  · exact Or.inl rfl
  · split
    · exact Or.inr rfl
    · split <;> exact Or.inr rfl

/-- The results of `Do` once the server has answered. -/
theorem client_Do_of_response (w : World) (c : client) (resp : Response)
    (hurl : w.urlError c.url = none) (hrt : w.roundTrip c.request = .ok resp) :
    (c.Do w).1 =
      if resp.StatusCode ≠ 200 then (none, some (c.handleError resp)) else c.handleSuccess resp := by
  unfold client.Do
  rw [hurl]
  dsimp only
  rw [hrt]
  dsimp only
  split <;> rfl

/-- A list is a prefix of itself followed by anything. -/
theorem hasPrefixList_append (sub post : List Char) : hasPrefixList sub (sub ++ post) = true := by
  induction sub with
  | nil => rfl
  | cons a as ih => simp [hasPrefixList, ih]

/-- A list occurs in every list built around it. -/
theorem containsList_append (pre sub post : List Char) :
    containsList sub (pre ++ (sub ++ post)) = true := by
  induction pre with
  | nil =>
    cases h : sub ++ post with
    | nil =>
      have hs : sub = [] := (List.append_eq_nil.mp h).1
      subst hs
      rfl
    | cons x xs =>
      rw [List.nil_append, containsList, ← h, hasPrefixList_append]
      rfl
  | cons a as ih =>
    rw [List.cons_append, containsList, ih]
    simp

/-- Members whose keys do not match `result` leave a `dataResponseV1` as it
is. -/
theorem foldl_storeMember_of_no_match (ms : List (String × JSON))
    (acc : dataResponseV1 × Option GoError)
    (h : ∀ kv ∈ ms, keyMatches "result" kv.1 = false) :
    ms.foldl dataResponseV1.storeMember acc = acc := by
  induction ms generalizing acc with
  | nil => rfl
  | cons kv rest ih =>
    have hkv : keyMatches "result" kv.1 = false := h kv (List.mem_cons_self _ _)
    have hstep : dataResponseV1.storeMember acc kv = acc := by
      simp [dataResponseV1.storeMember, hkv]
    rw [List.foldl_cons, hstep]
    exact ih acc (fun kv' hmem => h kv' (List.mem_cons_of_mem _ hmem))

/-- `Do` does not write to the sink. -/
theorem sinkWrites_Do (w : World) (c : client) : sinkWrites (c.Do w).2 = [] := by
  rcases client_Do_log w c with h | h <;> rw [h] <;> rfl

/-- `Do` does not sleep. -/
theorem sleeps_Do (w : World) (c : client) : sleeps (c.Do w).2 = [] := by
  rcases client_Do_log w c with h | h <;> rw [h] <;> rfl

/-- The sleeps of two logs in a row. -/
theorem sleeps_append (a b : List Effect) : sleeps (a ++ b) = sleeps a ++ sleeps b := by
  simp [sleeps, List.filterMap_append]

/-- `oneShot` does not sleep. -/
theorem sleeps_oneShot (w : World) (cfg : config) : sleeps (oneShot w cfg).2 = [] := by
  have hlog := sleeps_Do w { url := cfg.url, headers := cfg.headers, input := cfg.input }
  unfold oneShot
  dsimp only
  rcases hc : client.Do w { url := cfg.url, headers := cfg.headers, input := cfg.input } with
    ⟨⟨res, err⟩, log⟩
  rw [hc] at hlog
  change sleeps log = [] at hlog
  cases res with
  | none => cases err <;> exact hlog
  | some v =>
    cases err with
    | some e => exact hlog
    | none =>
      cases v with
      | string r =>
        dsimp only
        split
        · split
          · rw [sleeps_append, hlog]; rfl
          · split <;> (rw [sleeps_append, hlog]; rfl)
        · rw [sleeps_append, hlog]; rfl
      | nil => exact hlog
      | bool b => exact hlog
      | float64 lit => exact hlog
      | Number lit => exact hlog
      | slice xs => exact hlog
      | map m => exact hlog

/-- A turn of the loop sleeps once, for `cfg.delay`. -/
theorem sleeps_iteration (w : World) (cfg : config) :
    sleeps (run.iteration w cfg) = [cfg.delay] := by
  unfold run.iteration
  rw [sleeps_append, sleeps_append, sleeps_oneShot]
  cases (oneShot w cfg).1 <;> rfl

/-- What `dropWhile` removes when the predicate singles out one character:
copies of that character, up to a first character that is another. -/
theorem dropWhile_spec (p : Char → Bool) (x : Char) (hp : ∀ c, p c = true ↔ c = x)
    (l : List Char) :
    ∃ i, l = List.replicate i x ++ l.dropWhile p ∧ (l.dropWhile p).head? ≠ some x := by
  induction l with
  | nil => exact ⟨0, rfl, by simp⟩
  | cons c cs ih =>
    by_cases hc : p c = true
    · obtain ⟨i, h1, h2⟩ := ih
      have hcx : c = x := (hp c).mp hc
      refine ⟨i + 1, ?_, ?_⟩
      · rw [List.dropWhile_cons_of_pos hc, List.replicate_succ, List.cons_append, ← h1, hcx]
      · rw [List.dropWhile_cons_of_pos hc]
        exact h2
    · refine ⟨0, ?_, ?_⟩
      · rw [List.dropWhile_cons_of_neg hc]
        rfl
      · rw [List.dropWhile_cons_of_neg hc]
        intro h
        have hcx : c = x := by simpa using h
        exact hc ((hp c).mpr hcx)

/-- What `dropWhileEnd` removes when the predicate singles out one character. -/
theorem dropWhileEnd_spec (p : Char → Bool) (x : Char) (hp : ∀ c, p c = true ↔ c = x)
    (l : List Char) :
    ∃ k, l = dropWhileEnd p l ++ List.replicate k x ∧ (dropWhileEnd p l).getLast? ≠ some x := by
  obtain ⟨k, h1, h2⟩ := dropWhile_spec p x hp l.reverse
  refine ⟨k, ?_, ?_⟩
  · have h := congrArg List.reverse h1
    rw [List.reverse_reverse, List.reverse_append, List.reverse_replicate] at h
    exact h
  · unfold dropWhileEnd
    rw [List.getLast?_reverse]
    exact h2

/-- Trimming the end keeps the start free of the character. -/
theorem dropWhileEnd_head (p : Char → Bool) (x : Char) (hp : ∀ c, p c = true ↔ c = x)
    (l : List Char) (h : l.head? ≠ some x) : (dropWhileEnd p l).head? ≠ some x := by
  obtain ⟨k, h1, _⟩ := dropWhileEnd_spec p x hp l
  cases hd : dropWhileEnd p l with
  | nil => simp
  | cons c cs =>
    rw [hd] at h1
    rw [h1] at h
    simpa using h

/-- The cutset `/` holds the slash only. -/
theorem slash_cutset (c : Char) : ("/".data.contains c) = true ↔ c = '/' := by
  have h : "/".data = ['/'] := rfl
  rw [h, List.contains, List.elem_iff, List.mem_singleton]

/-- The path with its leading slash put back when it is not empty. -/
theorem slash_prefixed (T : String) :
    (if (T != "") = true then "/" ++ T else T).data =
      if T.data = [] then [] else '/' :: T.data := by
  by_cases hT : T.data = []
  · have hT' : T = "" := String.ext hT
    subst hT'
    rfl
  · have hne : T ≠ "" := fun h => hT (by rw [h])
    simp [hT, hne]

/-! ## Lemmas: the method `Var.String` -/

/-- `String` of an unset flag is `undefined`. -/
theorem Var_String_undefined (spare : List UInt8) (useNumber : Bool) :
    Var.String spare { UseNumber := useNumber, Value := none } = some (utf8Bytes "undefined") :=
  rfl

/-- `String` of a flag whose compact encoding has 10 bytes or more is the
first 10 bytes of the encoding. -/
theorem Var_String_long (spare : List UInt8) (useNumber : Bool) (v : Value) (buf : String)
    (hbuf : json.Compact (json.Marshal v) = .ok buf) (hlen : 10 ≤ (utf8Bytes buf).length) :
    Var.String spare { UseNumber := useNumber, Value := some v } =
      some ((utf8Bytes buf).take 10) := by
  have h10 : 10 ≤ (utf8Bytes buf ++ spare).length := by
    rw [List.length_append]; omega
  simp only [Var.String, hbuf, Buffer.Bytes, ByteSlice.upTo, if_pos h10]
  rw [List.take_append_of_le_length hlen]

/-- `String` of a flag whose compact encoding has fewer than 10 bytes is
never that encoding: it is a panic or a string of 10 bytes. -/
theorem Var_String_short (spare : List UInt8) (useNumber : Bool) (v : Value) (buf : String)
    (hbuf : json.Compact (json.Marshal v) = .ok buf) (hlen : (utf8Bytes buf).length < 10) :
    Var.String spare { UseNumber := useNumber, Value := some v } ≠ some (utf8Bytes buf) := by
  simp only [Var.String, hbuf, Buffer.Bytes, ByteSlice.upTo]
  split
  · rename_i h10
    intro h
    have hl := congrArg List.length (Option.some.inj h)
    rw [List.length_take] at hl
    omega
  · simp

/-! ## Claim C1 -/

/-- C1: every request `Do` sends has its shape chosen by the presence of the
input alone: without an input the method is GET and the body is empty; with
an input `v` (JSON null included) the method is POST and the body is the JSON
encoding of the object whose only key `input` has the value `v`, ended by
the newline `Encode` writes.  When the URL is accepted exactly one request
is sent. -/
theorem C1_request_shape (w : World) (c : client) :
    (w.urlError c.url = none → ∃ req, (c.Do w).2 = [Effect.httpDo req]) ∧
    ∀ req, Effect.httpDo req ∈ (c.Do w).2 →
      req.URL = c.url ∧
      (c.input = none → req.Method = "GET" ∧ req.Body = "") ∧
      (∀ v, c.input = some v →
        req.Method = "POST" ∧ req.Body = json.Marshal (.map [("input", v)]) ++ "\n") := by
  constructor
  · intro hurl
    refine ⟨c.request, ?_⟩
    unfold client.Do
    rw [hurl]
    dsimp only
    split
    · rfl
    · split <;> rfl
  · intro req hreq
    have hreq' : req = c.request := by
      rcases client_Do_log w c with h | h
      · rw [h] at hreq; cases hreq
      · rw [h] at hreq
        simpa using hreq
    subst hreq'
    refine ⟨rfl, ?_, ?_⟩
    · intro hin
      simp [client.request, hin]
    · intro v hin
      rw [marshal_input_object]
      simp [client.request, hin, Encoder.Encode, dataRequestV1.marshal]

/-- C1, at concrete inputs: without input a GET with an empty body is sent,
with the input JSON null a POST with the body `{"input":null}` and a
newline. -/
theorem C1_request_shape_witness :
    (client.Do (World.answering "\x7b\x7d") { url := "http://x/v1/data/a", input := none, headers := [] }).2 =
      [Effect.httpDo { Method := "GET", URL := "http://x/v1/data/a", Header := [], Body := "" }] ∧
    ∀ req, Effect.httpDo req ∈
        (client.Do (World.answering "\x7b\x7d")
          { url := "http://x/v1/data/a", input := some Value.nil, headers := [] }).2 →
      req.Method = "POST" ∧ req.Body = "\x7b\"input\":null\x7d\n" := by
  refine ⟨rfl, ?_⟩
  intro req hreq
  have h := ((C1_request_shape (World.answering "\x7b\x7d")
    { url := "http://x/v1/data/a", input := some Value.nil, headers := [] }).2 req hreq).2.2
    Value.nil rfl
  exact ⟨h.1, h.2.trans rfl⟩

/-! ## Claim C2 -/

/-- C2 (as amended): when the server answers with status 200, then (1) if the
body is the JSON object whose only member `result` has a value other than
null, stored as the Go value `R`, `handleSuccess` and `Do` return `R` and no
error; (2) if the body is a JSON object none of whose keys matches `result`
ignoring the case of letters, they return nil and no error. -/
theorem C2_success_result (w : World) (c : client) (resp : Response)
    (hurl : w.urlError c.url = none) (hrt : w.roundTrip c.request = .ok resp)
    (hstatus : resp.StatusCode = 200) :
    (∀ (j : JSON) (R : Value) (rest : String),
      Decoder.readValue resp.Body = .ok (.object [("result", j)], rest) →
      j ≠ JSON.null → j.toInterface false = (R, none) →
      c.handleSuccess resp = (some R, none) ∧ (c.Do w).1 = (some R, none)) ∧
    (∀ (ms : List (String × JSON)) (rest : String),
      Decoder.readValue resp.Body = .ok (.object ms, rest) →
      (∀ kv ∈ ms, keyMatches "result" kv.1 = false) →
      c.handleSuccess resp = (none, none) ∧ (c.Do w).1 = (none, none)) := by
  have hdo : (c.Do w).1 = c.handleSuccess resp := by
    rw [client_Do_of_response w c resp hurl hrt]
    simp [hstatus]
  rw [hdo]
  constructor
  · intro j R rest hbody hj hR
    have hk : keyMatches "result" "result" = true := by decide
    have hs : c.handleSuccess resp = (some R, none) := by
      cases j <;>
        first
        | exact absurd rfl hj
        | simp [client.handleSuccess, Decoder.Decode, hbody, dataResponseV1.store,
            dataResponseV1.storeMember, hk, hR, firstError]
    exact ⟨hs, hs⟩
  · intro ms rest hbody hms
    have hs : c.handleSuccess resp = (none, none) := by
      simp [client.handleSuccess, Decoder.Decode, hbody, dataResponseV1.store,
        foldl_storeMember_of_no_match ms _ hms]
    exact ⟨hs, hs⟩

/-- C2 (as amended), at concrete responses: the body `{"result":"hello"}`
gives the string `hello`, the body `{"other":1}` gives nil. -/
theorem C2_success_result_witness :
    (client.Do (World.answering "\x7b\"result\":\"hello\"\x7d") client.plain).1 =
      (some (.string "hello"), none) ∧
    (client.Do (World.answering "\x7b\"other\":1\x7d") client.plain).1 = (none, none) :=
  ⟨((C2_success_result (World.answering "\x7b\"result\":\"hello\"\x7d") client.plain
      { StatusCode := 200, Header := [], Body := "\x7b\"result\":\"hello\"\x7d" } rfl rfl rfl).1
      (.string "hello") (.string "hello") "" rfl (by simp) rfl).2,
   ((C2_success_result (World.answering "\x7b\"other\":1\x7d") client.plain
      { StatusCode := 200, Header := [], Body := "\x7b\"other\":1\x7d" } rfl rfl rfl).2
      [("other", .number "1")] "" rfl (by decide)).2⟩

/-- C2 (counterexample): the body `{"Result":"x"}` is a JSON object that has
no member with the key `result`, and yet `handleSuccess` and `Do` return the
value `x`, not nil: the decoder matches keys to struct fields ignoring the
case of letters. -/
theorem C2_counterexample :
    Decoder.readValue "\x7b\"Result\":\"x\"\x7d" = .ok (.object [("Result", .string "x")], "") ∧
    (∀ kv ∈ [("Result", JSON.string "x")], kv.1 ≠ "result") ∧
    client.handleSuccess client.plain
      { StatusCode := 200, Header := [], Body := "\x7b\"Result\":\"x\"\x7d" } =
      (some (.string "x"), none) ∧
    (client.Do (World.answering "\x7b\"Result\":\"x\"\x7d") client.plain).1 =
      (some (.string "x"), none) ∧
    (client.Do (World.answering "\x7b\"Result\":\"x\"\x7d") client.plain).1.1 ≠ none := by
  refine ⟨rfl, by decide, rfl, rfl, ?_⟩
  intro h
  exact absurd (show some (Value.string "x") = none from h) (by simp)

/-! ## Claim C3 -/

/-- C3 (as amended): let the client return `result` and no error.  If
`result` is nil, `oneShot` writes nothing to the sink and returns no error.
If it is a value that is not a string, `oneShot` writes nothing to the sink
and returns the error `bad result type T: expected string`.  If it is a
string `R` and `cfg.output` is empty, standard output is written once, with
`R` and a newline, and no error is returned.  If it is a string `R` and
`cfg.output` is not empty, the parent directories are created first: when
that fails nothing is written to the sink and the failure is returned as
`mkdir failed`; otherwise the file `cfg.output` is written once with exactly
`R`, and the error returned is that of the write, if any, as `write failed`. -/
theorem C3_sink_routing (w : World) (cfg : config) (result : Option Value)
    (hdo : (cfg.client.Do w).1 = (result, none)) :
    (result = none → (oneShot w cfg).1 = none ∧ sinkWrites (oneShot w cfg).2 = []) ∧
    (∀ v, result = some v → (∀ R, v ≠ .string R) →
      (oneShot w cfg).1 = some (.errorf ("bad result type " ++ v.typeName ++ ": expected string")) ∧
      sinkWrites (oneShot w cfg).2 = []) ∧
    (∀ R, result = some (.string R) → cfg.output = "" →
      (oneShot w cfg).1 = none ∧ sinkWrites (oneShot w cfg).2 = [.stdout (R ++ "\n")]) ∧
    (∀ R, result = some (.string R) → cfg.output ≠ "" →
      (∀ err, w.MkdirAll (path.Dir cfg.output) 755 = some err →
        (oneShot w cfg).1 = some (.wrapf err "mkdir failed") ∧
        sinkWrites (oneShot w cfg).2 = []) ∧
      (w.MkdirAll (path.Dir cfg.output) 755 = none →
        sinkWrites (oneShot w cfg).2 = [.WriteFile cfg.output R 0o644] ∧
        (w.WriteFile cfg.output R 0o644 = none → (oneShot w cfg).1 = none) ∧
        (∀ err, w.WriteFile cfg.output R 0o644 = some err →
          (oneShot w cfg).1 = some (.wrapf err "write failed")))) := by
  have hlog := sinkWrites_Do w cfg.client
  rcases hc : cfg.client.Do w with ⟨⟨res, err⟩, log⟩
  rw [hc] at hdo hlog
  simp only [Prod.mk.injEq] at hdo
  obtain ⟨hres, herr⟩ := hdo
  subst hres herr
  have hone : oneShot w cfg =
      match ((res, (none : Option GoError)), log) with
      | ((_, some err), log) => (some (.wrapf err "request failed"), log)
      | ((none, none), log) => (none, log)
      | ((some result, none), log) =>
        match result with
        | .string r =>
          if cfg.output ≠ "" then
            match w.MkdirAll (path.Dir cfg.output) 755 with
            | some err =>
              (some (.wrapf err "mkdir failed"), log ++ [.MkdirAll (path.Dir cfg.output) 755])
            | none =>
              match w.WriteFile cfg.output r 0o644 with
              | some err =>
                (some (.wrapf err "write failed"),
                 log ++ [.MkdirAll (path.Dir cfg.output) 755, .WriteFile cfg.output r 0o644])
              | none =>
                (none, log ++ [.MkdirAll (path.Dir cfg.output) 755, .WriteFile cfg.output r 0o644])
          else (none, log ++ [.stdout (r ++ "\n")])
        | v => (some (.errorf ("bad result type " ++ v.typeName ++ ": expected string")), log) := by
    unfold oneShot
    have hc' : client.Do w { url := cfg.url, headers := cfg.headers, input := cfg.input } =
        ((res, none), log) := hc
    dsimp only
    rw [hc']
  have hlog' : List.filter Effect.isSinkWrite log = [] := hlog
  refine ⟨?_, ?_, ?_, ?_⟩
  · intro h
    subst h
    rw [hone]
    exact ⟨rfl, hlog⟩
  · intro v h hv
    subst h
    rw [hone]
    cases v with
    | string s => exact absurd rfl (hv s)
    | nil => exact ⟨rfl, hlog⟩
    | bool b => exact ⟨rfl, hlog⟩
    | float64 lit => exact ⟨rfl, hlog⟩
    | Number lit => exact ⟨rfl, hlog⟩
    | slice xs => exact ⟨rfl, hlog⟩
    | map m => exact ⟨rfl, hlog⟩
  · intro R h hout
    subst h
    rw [hone]
    simp [hout, sinkWrites, hlog', Effect.isSinkWrite]
  · intro R h hout
    subst h
    rw [hone]
    refine ⟨?_, ?_⟩
    · intro err hmk
      simp [hout, hmk, sinkWrites, hlog', Effect.isSinkWrite]
    · intro hmk
      refine ⟨?_, ?_, ?_⟩
      · cases hwr : w.WriteFile cfg.output R 0o644 <;>
          simp [hout, hmk, hwr, sinkWrites, hlog', Effect.isSinkWrite]
      · intro hwr
        simp [hout, hmk, hwr]
      · intro err hwr
        simp [hout, hmk, hwr]

/-- C3 (as amended), at a concrete input: the result `hello` with no output
file is written once to standard output, followed by a newline. -/
theorem C3_sink_routing_witness :
    (oneShot (World.answering "\x7b\"result\":\"hello\"\x7d") (config.writingTo "")).1 = none ∧
    sinkWrites (oneShot (World.answering "\x7b\"result\":\"hello\"\x7d") (config.writingTo "")).2 =
      [.stdout "hello\n"] :=
  (C3_sink_routing (World.answering "\x7b\"result\":\"hello\"\x7d") (config.writingTo "")
    (some (.string "hello")) rfl).2.2.1 "hello" rfl rfl

/-- C3 (counterexample): the client succeeds with the string `hello` and the
output is the file `out/result.txt`, but the directory `out` cannot be
created.  `oneShot` writes nothing to the sink and returns an error, where
the claim has one write and no error. -/
theorem C3_counterexample :
    ((config.writingTo "out/result.txt").client.Do World.readOnly).1 =
      (some (.string "hello"), none) ∧
    (oneShot World.readOnly (config.writingTo "out/result.txt")).1 =
      some (.wrapf (.lib "mkdir out: read-only file system") "mkdir failed") ∧
    (oneShot World.readOnly (config.writingTo "out/result.txt")).1 ≠ none ∧
    sinkWrites (oneShot World.readOnly (config.writingTo "out/result.txt")).2 = [] := by
  refine ⟨rfl, rfl, ?_, rfl⟩
  intro h
  exact absurd
    (show some (GoError.wrapf (.lib "mkdir out: read-only file system") "mkdir failed") = none
      from h) (by simp)

/-! ## Claim C4 -/

/-- C4: when the server answers with a status other than 200, declares a
content type that contains `application/json` and sends the JSON object with
the members `code`: `C` and `message`: `M` (both strings), `Do` returns no
value and the error is the `errorResponseV1` with code `C` and message `M`,
whose description is `C` followed by `": "` followed by `M`. -/
theorem C4_application_error (w : World) (c : client) (resp : Response) (C M rest : String)
    (hurl : w.urlError c.url = none) (hrt : w.roundTrip c.request = .ok resp)
    (hstatus : resp.StatusCode ≠ 200)
    (htype : strings.Contains (resp.Header.Get "Content-Type") "application/json" = true)
    (hbody : Decoder.readValue resp.Body =
      .ok (.object [("code", .string C), ("message", .string M)], rest)) :
    (c.Do w).1 = (none, some (.response { Code := C, Message := M })) ∧
    (GoError.response { Code := C, Message := M }).Error = C ++ ": " ++ M := by
  refine ⟨?_, rfl⟩
  rw [client_Do_of_response w c resp hurl hrt, if_pos hstatus]
  have hc : keyMatches "code" "code" = true := by decide
  have hm : keyMatches "code" "message" = false := by decide
  have hmm : keyMatches "message" "message" = true := by decide
  simp [client.handleError, htype, Decoder.Decode, hbody, errorResponseV1.store,
    errorResponseV1.storeMember, hc, hm, hmm, storeString, firstError]

/-- C4, at a concrete response: status 404 with a JSON error body. -/
theorem C4_application_error_witness :
    (client.Do (World.responding
        { StatusCode := 404, Header := [("Content-Type", ["application/json"])],
          Body := "\x7b\"code\":\"not_found\",\"message\":\"document missing\"\x7d" })
      client.plain).1 =
      (none, some (.response { Code := "not_found", Message := "document missing" })) ∧
    (GoError.response { Code := "not_found", Message := "document missing" }).Error =
      "not_found: document missing" :=
  C4_application_error _ client.plain
    { StatusCode := 404, Header := [("Content-Type", ["application/json"])],
      Body := "\x7b\"code\":\"not_found\",\"message\":\"document missing\"\x7d" }
    "not_found" "document missing" "" rfl rfl (by decide) (by decide) rfl

/-! ## Claim C5 -/

/-- C5 (as amended): when the server answers with a status `N` other than 200
and does not declare a content type that contains `application/json`, then,
whatever the body is, `Do` returns no value and the error made by
`fmt.Errorf` whose description is `status N: unknown error`; the description
contains the decimal rendering of `N`. -/
theorem C5_unknown_error (w : World) (c : client) (resp : Response)
    (hurl : w.urlError c.url = none) (hrt : w.roundTrip c.request = .ok resp)
    (hstatus : resp.StatusCode ≠ 200)
    (htype : strings.Contains (resp.Header.Get "Content-Type") "application/json" = false) :
    (c.Do w).1 =
      (none, some (.errorf ("status " ++ toString resp.StatusCode ++ ": unknown error"))) ∧
    strings.Contains
      (GoError.errorf ("status " ++ toString resp.StatusCode ++ ": unknown error")).Error
      (toString resp.StatusCode) = true := by
  constructor
  · rw [client_Do_of_response w c resp hurl hrt, if_pos hstatus]
    simp [client.handleError, htype]
  · simp only [GoError.Error, strings.Contains, String.data_append]
    rw [List.append_assoc]
    exact containsList_append _ _ _

/-- C5 (as amended), at a concrete response: status 502 with an HTML body. -/
theorem C5_unknown_error_witness :
    (client.Do (World.responding
        { StatusCode := 502, Header := [("Content-Type", ["text/html"])],
          Body := "<html>Bad Gateway</html>" })
      client.plain).1 = (none, some (.errorf "status 502: unknown error")) ∧
    strings.Contains (GoError.errorf "status 502: unknown error").Error "502" = true :=
  C5_unknown_error _ client.plain
    { StatusCode := 502, Header := [("Content-Type", ["text/html"])],
      Body := "<html>Bad Gateway</html>" } rfl rfl (by decide) (by decide)

/-- C5 (counterexample): a response with status 500 that declares the content
type `application/json` and has the body `oops`, which is not JSON.  `Do`
returns the syntax error of the decoder, not the error `status 500: unknown
error`, and the description of that error does not contain `500`. -/
theorem C5_counterexample :
    json.Valid "oops" = false ∧
    (client.Do (World.responding
        { StatusCode := 500, Header := [("Content-Type", ["application/json"])],
          Body := "oops" })
      client.plain).1 =
      (none, some (.lib "invalid character 'o' looking for beginning of value")) ∧
    (client.Do (World.responding
        { StatusCode := 500, Header := [("Content-Type", ["application/json"])],
          Body := "oops" })
      client.plain).1.2 ≠ some (.errorf "status 500: unknown error") ∧
    strings.Contains
      (GoError.lib "invalid character 'o' looking for beginning of value").Error "500" = false := by
  refine ⟨by decide, rfl, ?_, by decide⟩
  intro h
  exact absurd
    (show some (GoError.lib "invalid character 'o' looking for beginning of value") =
      some (GoError.errorf "status 500: unknown error") from h) (by simp)

/-! ## Claim C6 -/

/-- C6: the URL that the command hands to `run`.  The base address `b` is
`r` followed by slashes only, `r` not ending in a slash; the path argument
`a` is slashes, then `t`, then slashes, `t` neither starting nor ending in a
slash, and `t` is empty exactly when `a` is empty or consists of slashes.
The URL is `r`, then `/v1/data`, then the normalised path: nothing when `t`
is empty and otherwise a single slash followed by `t`, which therefore
starts with exactly one slash and does not end in a slash.  For the base address
`http://x` and the argument `/foo/bar` it is `http://x/v1/data/foo/bar`. -/
theorem C6_request_url (b a : String) (flag : Var) (cfg : config) (rest : List String) :
    (∃ (r t : List Char) (i j k : Nat),
      b.data = r ++ List.replicate k '/' ∧ r.getLast? ≠ some '/' ∧
      a.data = List.replicate i '/' ++ t ++ List.replicate j '/' ∧
      t.head? ≠ some '/' ∧ t.getLast? ≠ some '/' ∧
      (t ≠ [] → ('/' :: t).getLast? ≠ some '/') ∧
      (t = [] ↔ ∀ c ∈ a.data, c = '/') ∧
      (main.Run b flag cfg (a :: rest)).map (fun cfg' => cfg'.url.data) =
        some (r ++ "/v1/data".data ++ (if t = [] then [] else '/' :: t))) ∧
    (main.Run "http://x" flag cfg ("/foo/bar" :: rest)).map (fun cfg' => cfg'.url) =
      some "http://x/v1/data/foo/bar" := by
  refine ⟨?_, rfl⟩
  obtain ⟨k, hb1, hb2⟩ := dropWhileEnd_spec _ '/' slash_cutset b.data
  obtain ⟨i, ha1, ha2⟩ := dropWhile_spec _ '/' slash_cutset a.data
  obtain ⟨j, ht1, ht2⟩ := dropWhileEnd_spec _ '/' slash_cutset
    (a.data.dropWhile (fun c => "/".data.contains c))
  have ht3 := dropWhileEnd_head _ '/' slash_cutset _ ha2
  refine ⟨dropWhileEnd (fun c => "/".data.contains c) b.data,
    dropWhileEnd (fun c => "/".data.contains c) (a.data.dropWhile (fun c => "/".data.contains c)),
    i, j, k, hb1, hb2, ?_, ht3, ht2, ?_, ?_, ?_⟩
  · rw [List.append_assoc, ← ht1]
    exact ha1
  · intro hne
    cases hd : dropWhileEnd (fun c => "/".data.contains c)
        (a.data.dropWhile (fun c => "/".data.contains c)) with
    | nil => exact absurd hd hne
    | cons c cs =>
      rw [hd] at ht2
      rw [List.getLast?_cons_cons]
      exact ht2
  · constructor
    · intro ht c hc
      rw [ht, List.nil_append] at ht1
      rw [ha1, ht1] at hc
      rcases List.mem_append.mp hc with h | h
      · exact List.eq_of_mem_replicate h
      · exact List.eq_of_mem_replicate h
    · intro hall
      have hdrop : a.data.dropWhile (fun c => "/".data.contains c) = [] := by
        rw [List.dropWhile_eq_nil_iff]
        intro c hc
        exact (slash_cutset c).mpr (hall c hc)
      rw [hdrop]
      rfl
  · simp only [main.Run, Option.map_some', String.data_append]
    rw [slash_prefixed]
    rfl

/-! ## Claim C7 -/

/-- C7 (as amended): let the argument be non-empty once trimmed.  If it
starts with `@` and the file named after it cannot be read, or if no JSON
value can be read from the start of the text to decode (the contents of the
file after `@`, the trimmed argument otherwise), `Set` returns the error and
leaves the flag, `flg.Value` included, as it was. -/
theorem C7_set_failure (w : World) (flg : Var) (s : String)
    (hne : strings.TrimSpace s ≠ "") :
    (∀ err, strings.HasPrefix (strings.TrimSpace s) "@" = true →
      w.ReadFile ⟨(strings.TrimSpace s).data.drop 1⟩ = .error err →
      Var.Set w flg s = (flg, some err)) ∧
    (∀ bs err, strings.HasPrefix (strings.TrimSpace s) "@" = true →
      w.ReadFile ⟨(strings.TrimSpace s).data.drop 1⟩ = .ok bs →
      Decoder.readValue bs = .error err →
      Var.Set w flg s = (flg, some err)) ∧
    (∀ err, strings.HasPrefix (strings.TrimSpace s) "@" = false →
      Decoder.readValue (strings.TrimSpace s) = .error err →
      Var.Set w flg s = (flg, some err)) := by
  refine ⟨?_, ?_, ?_⟩
  · intro err hat hread
    rw [List.drop_one] at hread
    simp [Var.Set, hne, hat, hread]
  · intro bs err hat hread hbad
    rw [List.drop_one] at hread
    simp [Var.Set, hne, hat, hread, Decoder.Decode, hbad]
  · intro err hat hbad
    simp [Var.Set, hne, hat, Decoder.Decode, hbad]

/-- C7 (as amended), at the inputs of the tests: the literal `{"foo": "bar`
and a file that does not exist. -/
theorem C7_set_failure_witness :
    Var.Set (World.answering "") { UseNumber := false, Value := none } "\x7b\"foo\": \"bar" =
      ({ UseNumber := false, Value := none }, some io.ErrUnexpectedEOF) ∧
    Var.Set (World.answering "") { UseNumber := false, Value := none } "@non-existent-file" =
      ({ UseNumber := false, Value := none },
       some (.lib "open: no such file or directory")) :=
  ⟨(C7_set_failure (World.answering "") { UseNumber := false, Value := none }
      "\x7b\"foo\": \"bar" (by decide)).2.2 io.ErrUnexpectedEOF (by decide) rfl,
   (C7_set_failure (World.answering "") { UseNumber := false, Value := none }
      "@non-existent-file" (by decide)).1 (.lib "open: no such file or directory")
      (by decide) rfl⟩

/-- C7 (counterexample): the arguments `1 2` and `{"foo": "bar"}}` are not
one JSON value surrounded by white space, and yet `Set` returns no error and
sets `flg.Value` to the first value of the text. -/
theorem C7_counterexample :
    json.Valid "1 2" = false ∧
    Var.Set (World.answering "") { UseNumber := false, Value := none } "1 2" =
      ({ UseNumber := false, Value := some (.float64 "1") }, none) ∧
    json.Valid "\x7b\"foo\": \"bar\"\x7d\x7d" = false ∧
    Var.Set (World.answering "") { UseNumber := false, Value := none } "\x7b\"foo\": \"bar\"\x7d\x7d" =
      ({ UseNumber := false, Value := some (.map [("foo", .string "bar")]) }, none) :=
  ⟨by decide, rfl, by decide, rfl⟩

/-! ## Claim C8 -/

/-- C8 (the code at a failing input): with the output file `out/result.txt`
the directory `out` is created with the mode 755 written in decimal.  That
number is octal 1363, not octal 755; its permission bits are octal 363, and
the bit that grants the owner read permission (octal 400) is not set. -/
theorem C8_mkdir_mode :
    (oneShot (World.answering "\x7b\"result\":\"hello\"\x7d") (config.writingTo "out/result.txt")).2 =
      [.httpDo { Method := "GET", URL := "http://x/v1/data/foo/bar", Header := [], Body := "" },
       .MkdirAll "out" 755, .WriteFile "out/result.txt" "hello" 0o644] ∧
    (755 : Nat) ≠ 0o755 ∧ (755 : Nat) = 0o1363 ∧ (755 : Nat) % 0o1000 = 0o363 ∧
    (755 : Nat) &&& 0o400 = 0 :=
  ⟨rfl, by decide, by decide, by decide, by decide⟩

/-! ## Claim C9 -/

/-- C9: `run` never leaves its loop.  After any number `n` of turns, whatever
the outside world did in each of them, `run` has not returned, and it has
slept `n` times, each time for `cfg.delay`.  A turn consists of the effects
of `oneShot`, then the description of the error on standard error if
`oneShot` returned one (and nothing if it returned none), then the sleep; the
next turn runs with the same configuration. -/
theorem C9_run_polls_forever (ws : Nat → World) (cfg : config) (n : Nat) :
    (run ws cfg n).1 = none ∧
    sleeps (run ws cfg n).2 = List.replicate n cfg.delay ∧
    (run ws cfg (n + 1)).2 =
      run.iteration (ws 0) cfg ++ (run (fun i => ws (i + 1)) cfg n).2 ∧
    (∀ w, ((oneShot w cfg).1 = none →
        run.iteration w cfg = (oneShot w cfg).2 ++ [.Sleep cfg.delay]) ∧
      (∀ err, (oneShot w cfg).1 = some err →
        run.iteration w cfg =
          (oneShot w cfg).2 ++ [.stderr (err.Error ++ "\n"), .Sleep cfg.delay])) := by
  refine ⟨?_, ?_, rfl, ?_⟩
  · induction n generalizing ws with
    | zero => rfl
    | succ k ih => exact ih (fun i => ws (i + 1))
  · induction n generalizing ws with
    | zero => rfl
    | succ k ih =>
      have hstep : (run ws cfg (k + 1)).2 =
          run.iteration (ws 0) cfg ++ (run (fun i => ws (i + 1)) cfg k).2 := rfl
      rw [hstep, sleeps_append, sleeps_iteration, ih (fun i => ws (i + 1))]
      rfl
  · intro w
    constructor
    · intro h
      simp [run.iteration, h]
    · intro err h
      simp [run.iteration, h]

/-! ## Claim C10 -/

/-- C10 (the code at a failing input): the flag holds the number 1, whose
compact encoding is the single byte `1`.  Whatever the unused capacity of
the buffer is, `String` does not return that encoding: with fewer than 9
spare bytes the slice expression `[:10]` panics, with 9 or more it returns
10 bytes, the encoding followed by 9 bytes of the spare capacity. -/
theorem C10_short_encoding (spare : List UInt8) :
    json.Compact (json.Marshal (.float64 "1")) = .ok "1" ∧
    Var.String spare { UseNumber := false, Value := some (.float64 "1") } ≠
      some (utf8Bytes "1") ∧
    (spare.length < 9 →
      Var.String spare { UseNumber := false, Value := some (.float64 "1") } = none) ∧
    (9 ≤ spare.length →
      Var.String spare { UseNumber := false, Value := some (.float64 "1") } =
        some (49 :: spare.take 9)) := by
  have hs : Var.String spare { UseNumber := false, Value := some (.float64 "1") } =
      if 10 ≤ ([49] ++ spare).length then some (([49] ++ spare).take 10) else none := rfl
  have hb : utf8Bytes "1" = [49] := rfl
  rw [hs, hb]
  refine ⟨rfl, ?_, ?_, ?_⟩
  · split
    · rename_i hge
      intro h
      have hlen := congrArg List.length (Option.some.inj h)
      rw [List.length_take] at hlen
      simp only [List.length_cons, List.length_nil] at hlen
      omega
    · simp
  · intro h
    have : ¬ 10 ≤ ([49] ++ spare).length := by simp; omega
    rw [if_neg this]
  · intro h
    have : 10 ≤ ([49] ++ spare).length := by simp; omega
    rw [if_pos this]
    rfl

end OpaCp
